import Mathlib

set_option maxRecDepth 8000

/-!
Verification of the manga-ocr layout core: reading-order inference over text
regions (`src/detector.py`, `sort_by_reading_order`), panel grouping
(`src/panel_detector.py`, `detect_panels`) and the per-page composition /
fallback layer (`src/pipeline.py`, `process_image`).

The embedding uses exact rational arithmetic for pixel coordinates and the
derived thresholds (the Python code computes them with machine integers and
floats; all concrete inputs considered here are small enough for the two to
agree).  Object identity, which the Python code uses for its `used` sets, is
modelled by pairing each list element with its position index (`List.enum`),
as value semantics cannot observe reference identity.  Python's stable
`sort`/`sorted` is modelled by a stable insertion sort.
-/

/-- Text region as in `detector.py` `TextRegion`: a bounding box
`(x1, y1, x2, y2)`, an opaque cropped-image token, and a reading order. -/
structure TextRegion where
  x1 : ℚ
  y1 : ℚ
  x2 : ℚ
  y2 : ℚ
  image : ℕ
  readingOrder : ℕ
deriving DecidableEq, Repr

/-- Panel as in `panel_detector.py` `Panel`: bounding box, member text
regions, and reading order. -/
structure Panel where
  x1 : ℚ
  y1 : ℚ
  x2 : ℚ
  y2 : ℚ
  textRegions : List TextRegion
  readingOrder : ℕ
deriving DecidableEq, Repr

/-- All fields of a region except its reading order: what the layout
algorithms must pass through unchanged. -/
def stripOrder (r : TextRegion) : ℚ × ℚ × ℚ × ℚ × ℕ :=
  (r.x1, r.y1, r.x2, r.y2, r.image)

/-- Maximum of a rational list, as Python's `max` on a nonempty sequence
(the value on `[]` is irrelevant: the code never takes a max of nothing). -/
def listMaxQ : List ℚ → ℚ
  | [] => 0
  | a :: t => t.foldl max a

/-- Minimum of a rational list, as Python's `min` on a nonempty sequence. -/
def listMinQ : List ℚ → ℚ
  | [] => 0
  | a :: t => t.foldl min a

/-- Insert an element into a list, before the first element it compares
`le` to; keeps earlier-inserted equal elements in front. -/
def insertStable (le : α → α → Bool) (a : α) : List α → List α
  | [] => [a]
  | b :: t => if le a b then a :: b :: t else b :: insertStable le a t

/-- Stable insertion sort; models Python's stable `sorted`/`list.sort`. -/
def stableSort (le : α → α → Bool) : List α → List α
  | [] => []
  | a :: t => insertStable le a (stableSort le t)

/-- The seed-rescan grouping loop shared by `sort_by_reading_order` and both
loops of `detect_panels`: walk `seeds`, skipping already-used entries; an
unused entry seeds a group, and one scan over the whole `pool` (in pool
order) adds every other unused entry `near` the seed; all collected entries
are marked used.  Entries are `(index, value)` pairs, the index standing for
Python object identity. -/
def seedGroups (near : α → α → Bool) (pool : List (ℕ × α)) :
    List (ℕ × α) → List ℕ → List (List (ℕ × α))
  | [], _ => []
  | s :: rest, used =>
    if s.1 ∈ used then seedGroups near pool rest used
    else
      let mates := pool.filter
        (fun o => decide (o.1 ∉ used) && decide (o.1 ≠ s.1) && near s.2 o.2)
      (s :: mates) :: seedGroups near pool rest (used ++ (s :: mates).map Prod.fst)

/-- Comparator for Python's `sort(key=lambda x: (-bbox[2], bbox[1]))`:
right edge descending, ties by top edge ascending. -/
def rowItemLe (a b : ℕ × TextRegion) : Bool :=
  decide (b.2.x2 < a.2.x2) || (decide (a.2.x2 = b.2.x2) && decide (a.2.y1 ≤ b.2.y1))

/-- General path of `detector.py` `sort_by_reading_order` (lines 215-282):
group regions into rows by top-edge proximity (seed rescan over the input,
seeds visited in ascending top-y), sort rows internally right-to-left, order
rows top-to-bottom, flatten, and assign fresh reading orders `0..n-1`. -/
def rowSortCore (regions : List TextRegion) : List TextRegion :=
  let regionData := regions.enum
  let imageHeight := listMaxQ (regions.map (fun r => r.y1)) -
    listMinQ (regions.map (fun r => r.y1))
  let avgHeight := (regions.map (fun r => r.y2 - r.y1)).sum / (regions.length : ℚ)
  let rowThreshold := max 15 (min (avgHeight * (6/10)) (imageHeight * (8/100)))
  let seeds := stableSort (fun a b => decide (a.2.y1 ≤ b.2.y1)) regionData
  let rows := seedGroups (fun s o => decide (|s.y1 - o.y1| ≤ rowThreshold))
    regionData seeds []
  let sortedRows := rows.map (stableSort rowItemLe)
  let orderedRows := stableSort
    (fun r1 r2 => decide (listMinQ (r1.map (fun e => e.2.y1)) ≤
      listMinQ (r2.map (fun e => e.2.y1)))) sortedRows
  (orderedRows.flatten.enum).map (fun e => { e.2.2 with readingOrder := e.1 })

/-- Embedding of `detector.py` `sort_by_reading_order` (lines 184-282): the
empty and singleton special cases of lines 203-213, then the general row
grouping of `rowSortCore`. -/
def sort_by_reading_order (regions : List TextRegion) : List TextRegion :=
  match regions with
  | [] => []
  | [r] => [{ r with readingOrder := 0 }]
  | _ :: _ :: _ => rowSortCore regions

/-- Horizontal center of a region's bbox, `(x1+x2)/2`. -/
def cX (r : TextRegion) : ℚ := (r.x1 + r.x2) / 2

/-- Vertical center of a region's bbox, `(y1+y2)/2`. -/
def cY (r : TextRegion) : ℚ := (r.y1 + r.y2) / 2

/-- The clustering thresholds of `panel_detector.py` (lines 59-74):
`(panel_threshold_x, panel_threshold_y)`. -/
def panelThresholds (regions : List TextRegion) : ℚ × ℚ :=
  let avgWidth := (regions.map (fun r => r.x2 - r.x1)).sum / (regions.length : ℚ)
  let avgHeight := (regions.map (fun r => r.y2 - r.y1)).sum / (regions.length : ℚ)
  let imageWidth := listMaxQ (regions.map (fun r => r.x2))
  let imageHeight := listMaxQ (regions.map (fun r => r.y2))
  (max (avgWidth * 2) (min (imageWidth * (8/100)) 150),
   max (avgHeight * 2) (min (imageHeight * (8/100)) 150))

/-- The grouping loop of `detect_panels` (lines 78-104): seed-rescan over
regions in input order, a region joining the seed's group when its center is
within `panel_threshold_x` horizontally and `panel_threshold_y` vertically
of the seed's center. -/
def panelGroups (regions : List TextRegion) : List (List (ℕ × TextRegion)) :=
  let t := panelThresholds regions
  seedGroups
    (fun s o => decide (|cX s - cX o| ≤ t.1) && decide (|cY s - cY o| ≤ t.2))
    regions.enum regions.enum []

/-- Build one `Panel` from a group of member regions (lines 112-127): sort
the members by reading order, bbox = enclosing rectangle of the members. -/
def panelOf (g : List TextRegion) : Panel :=
  { x1 := listMinQ (g.map (fun r => r.x1)), y1 := listMinQ (g.map (fun r => r.y1)),
    x2 := listMaxQ (g.map (fun r => r.x2)), y2 := listMaxQ (g.map (fun r => r.y2)),
    textRegions := sort_by_reading_order g, readingOrder := 0 }

/-- The intermediate panel list of `detect_panels` (lines 106-127), before
panel ordering and the single-panel fallback are applied. -/
def buildPanelObjects (regions : List TextRegion) : List Panel :=
  ((panelGroups regions).filter (fun g => !g.isEmpty)).map
    (fun g => panelOf (g.map Prod.snd))

/-- Comparator for the within-row panel sort (line 195), key
`(-bbox[2], bbox[1])`. -/
def panelItemLe (a b : ℕ × Panel) : Bool :=
  decide (b.2.x2 < a.2.x2) || (decide (a.2.x2 = b.2.x2) && decide (a.2.y1 ≤ b.2.y1))

/-- Panel-ordering phase of `detect_panels` (lines 146-231): seed-rescan row
grouping on panel top edges (threshold `max(20, min(avgPanelHeight*0.6,
(maxTopY-minTopY)*0.08))`, seeds visited in ascending top-y), rows sorted
right-to-left internally and top-to-bottom among themselves, flattened with
fresh reading orders. -/
def orderPanels (panelObjects : List Panel) : List Panel :=
  let panelData := panelObjects.enum
  let imageHeight := listMaxQ (panelObjects.map (fun p => p.y1)) -
    listMinQ (panelObjects.map (fun p => p.y1))
  let avgPanelHeight := (panelObjects.map (fun p => p.y2 - p.y1)).sum /
    (panelObjects.length : ℚ)
  let rowThreshold := max 20 (min (avgPanelHeight * (6/10)) (imageHeight * (8/100)))
  let seeds := stableSort (fun a b => decide (a.2.y1 ≤ b.2.y1)) panelData
  let rows := seedGroups (fun s o => decide (|s.y1 - o.y1| ≤ rowThreshold))
    panelData seeds []
  let sortedRows := rows.map (stableSort panelItemLe)
  let orderedRows := stableSort
    (fun r1 r2 => decide (listMinQ (r1.map (fun e => e.2.y1)) ≤
      listMinQ (r2.map (fun e => e.2.y1)))) sortedRows
  (orderedRows.flatten.enum).map (fun e => { e.2.2 with readingOrder := e.1 })

/-- Multi-region path of `detect_panels` (lines 49-231): group regions,
build the panel objects, fall back to a single all-region panel when at
most one panel was found, and otherwise order the panels. -/
def detectPanelsMulti (regions : List TextRegion) : List Panel :=
  let panelObjects := buildPanelObjects regions
  if panelObjects.length ≤ 1 then
    [{ x1 := listMinQ (regions.map (fun r => r.x1)),
       y1 := listMinQ (regions.map (fun r => r.y1)),
       x2 := listMaxQ (regions.map (fun r => r.x2)),
       y2 := listMaxQ (regions.map (fun r => r.y2)),
       textRegions := sort_by_reading_order regions, readingOrder := 0 }]
  else orderPanels panelObjects

/-- Embedding of `panel_detector.py` `detect_panels` (lines 18-231): the
empty and singleton special cases of lines 34-47, then the multi-region
path of `detectPanelsMulti`. -/
def detect_panels (regions : List TextRegion) : List Panel :=
  match regions with
  | [] => []
  | [r] => [{ x1 := r.x1, y1 := r.y1, x2 := r.x2, y2 := r.y2,
              textRegions := [r], readingOrder := 0 }]
  | _ :: _ :: _ => detectPanelsMulti regions

/-- OCR result as in `ocr.py` `OCRResult`: recognized text, confidence, and
the region it belongs to. -/
structure OCRResult where
  text : String
  confidence : ℚ
  region : TextRegion
deriving DecidableEq, Repr

/-- The `use_panels` decision of `pipeline.py` `process_image`
(lines 84-94). -/
def use_panels (panels : List Panel) (regions : List TextRegion) : Bool :=
  if panels.isEmpty then false
  else if panels.length = 1 then false
  else if decide ((panels.length : ℚ) > (regions.length : ℚ) * (8/10)) &&
      decide (regions.length > 2) then false
  else true

/-- The panel-branch region sequence of `process_image` (lines 100-113):
panels in panel reading order, members by local index, each re-annotated
with the composite key `panel.readingOrder * 1000 + index`. -/
def compose_panel_regions (panels : List Panel) : List TextRegion :=
  (panels.map (fun p => p.textRegions.enum.map
    (fun e => { e.2 with readingOrder := p.readingOrder * 1000 + e.1 }))).flatten

/-- The per-region OCR loop of `process_image` (lines 103-138), abstracted
over the external recognizer: `none` models a raised recognition exception.
With `skipErrors` a failed region contributes an empty-text, confidence-0
result and is kept in place; without it the loop aborts. -/
def run_ocr_loop (recognize : TextRegion → Option OCRResult) (skipErrors : Bool) :
    List TextRegion → Except Unit (List OCRResult × List TextRegion)
  | [] => Except.ok ([], [])
  | r :: rest =>
    match recognize r with
    | some res =>
      match run_ocr_loop recognize skipErrors rest with
      | Except.ok (os, fs) => Except.ok (res :: os, r :: fs)
      | Except.error e => Except.error e
    | none =>
      if skipErrors then
        match run_ocr_loop recognize skipErrors rest with
        | Except.ok (os, fs) =>
          Except.ok ({ text := "", confidence := 0, region := r } :: os, r :: fs)
        | Except.error e => Except.error e
      else Except.error ()

/-- The composition step of `process_image` (lines 84-138): decide
`use_panels`, then run the OCR loop either over the composite-keyed
panel-order sequence or over the flat detection order. -/
def process_image_core (recognize : TextRegion → Option OCRResult)
    (skipErrors : Bool) (regions : List TextRegion) (panels : List Panel) :
    Except Unit (List OCRResult × List TextRegion) :=
  if use_panels panels regions then
    run_ocr_loop recognize skipErrors (compose_panel_regions panels)
  else
    run_ocr_loop recognize skipErrors regions

/-! ### Basic lemmas about the list helpers -/

theorem insertStable_perm (le : α → α → Bool) (a : α) (l : List α) :
    (insertStable le a l).Perm (a :: l) := by
  induction l with
  | nil => simp [insertStable]
  | cons b t ih =>
    by_cases h : le a b = true
    · simp [insertStable, h]
    · simp only [insertStable, h, if_false, Bool.false_eq_true]
      exact (ih.cons b).trans (List.Perm.swap a b t)

theorem stableSort_perm (le : α → α → Bool) (l : List α) :
    (stableSort le l).Perm l := by
  induction l with
  | nil => simp [stableSort]
  | cons a t ih =>
    exact (insertStable_perm le a (stableSort le t)).trans (ih.cons a)

theorem foldl_min_le_init (t : List ℚ) : ∀ a : ℚ, t.foldl min a ≤ a := by
  induction t with
  | nil => intro a; simp
  | cons b t ih =>
    intro a
    simpa using le_trans (ih (min a b)) (min_le_left a b)

theorem foldl_min_le_mem (t : List ℚ) : ∀ (a q : ℚ), q ∈ t → t.foldl min a ≤ q := by
  induction t with
  | nil => intro a q h; cases h
  | cons b t ih =>
    intro a q h
    rcases List.mem_cons.mp h with rfl | h
    · simpa using le_trans (foldl_min_le_init t (min a q)) (min_le_right a q)
    · exact ih (min a b) q h

theorem listMinQ_le {l : List ℚ} {q : ℚ} (h : q ∈ l) : listMinQ l ≤ q := by
  cases l with
  | nil => cases h
  | cons a t =>
    rcases List.mem_cons.mp h with rfl | h
    · exact foldl_min_le_init t q
    · exact foldl_min_le_mem t a q h

theorem init_le_foldl_max (t : List ℚ) : ∀ a : ℚ, a ≤ t.foldl max a := by
  induction t with
  | nil => intro a; simp
  | cons b t ih =>
    intro a
    simpa using le_trans (le_max_left a b) (ih (max a b))

theorem mem_le_foldl_max (t : List ℚ) : ∀ (a q : ℚ), q ∈ t → q ≤ t.foldl max a := by
  induction t with
  | nil => intro a q h; cases h
  | cons b t ih =>
    intro a q h
    rcases List.mem_cons.mp h with rfl | h
    · simpa using le_trans (le_max_right a q) (init_le_foldl_max t (max a q))
    · exact ih (max a b) q h

theorem le_listMaxQ {l : List ℚ} {q : ℚ} (h : q ∈ l) : q ≤ listMaxQ l := by
  cases l with
  | nil => cases h
  | cons a t =>
    rcases List.mem_cons.mp h with rfl | h
    · exact init_le_foldl_max t q
    · exact mem_le_foldl_max t a q h

theorem enum_map_val (l : List α) (g : α → β) :
    l.enum.map (fun e => g e.2) = l.map g := by
  have : (fun (e : ℕ × α) => g e.2) = g ∘ Prod.snd := rfl
  rw [this, ← List.map_map, List.enum_map_snd]

theorem enum_fst_nodup (l : List α) : (l.enum.map Prod.fst).Nodup := by
  rw [List.enum_map_fst]; exact List.nodup_range l.length


theorem idx_unique {pool : List (ℕ × α)} (hnd : (pool.map Prod.fst).Nodup)
    {e m : ℕ × α} (he : e ∈ pool) (hm : m ∈ pool) (h : e.1 = m.1) : e = m :=
  List.inj_on_of_nodup_map hnd he hm h

/-! ### The seed-rescan grouping: its flattening is a permutation of the
unused part of the pool -/

theorem filter_or_head_perm (q : (ℕ × α) → Bool) (s : ℕ × α)
    (pool : List (ℕ × α)) (hnd : (pool.map Prod.fst).Nodup) (hsp : s ∈ pool)
    (hqs : q s = false) :
    (pool.filter (fun e => decide (e.1 = s.1) || q e)).Perm
      (s :: pool.filter q) := by
  induction pool with
  | nil => cases hsp
  | cons a t ih =>
    have hnd' : (t.map Prod.fst).Nodup := (List.nodup_cons.mp hnd).2
    have hafst : a.1 ∉ t.map Prod.fst := by
      simpa using (List.nodup_cons.mp hnd).1
    rcases List.mem_cons.mp hsp with rfl | hst
    · have h1 : List.filter (fun e => decide (e.1 = s.1) || q e) (s :: t) =
          s :: List.filter (fun e => decide (e.1 = s.1) || q e) t := by
        simp [List.filter_cons]
      have h2 : List.filter q (s :: t) = List.filter q t := by
        simp [List.filter_cons, hqs]
      rw [h1, h2]
      refine List.Perm.cons s ?_
      have heq : List.filter (fun e => decide (e.1 = s.1) || q e) t =
          List.filter q t := by
        apply List.filter_congr
        intro e he
        have hne : e.1 ≠ s.1 := by
          intro h
          exact hafst (h ▸ List.mem_map_of_mem Prod.fst he)
        simp [hne]
      rw [heq]
    · have hane : a.1 ≠ s.1 := by
        intro h
        exact hafst (h.symm ▸ List.mem_map_of_mem Prod.fst hst)
      by_cases hqa : q a = true
      · have h1 : List.filter (fun e => decide (e.1 = s.1) || q e) (a :: t) =
            a :: List.filter (fun e => decide (e.1 = s.1) || q e) t := by
          simp [List.filter_cons, hane, hqa]
        have h2 : List.filter q (a :: t) = a :: List.filter q t := by
          simp [List.filter_cons, hqa]
        rw [h1, h2]
        exact ((ih hnd' hst).cons a).trans (List.Perm.swap s a _)
      · have hqa' : q a = false := by simpa using hqa
        have h1 : List.filter (fun e => decide (e.1 = s.1) || q e) (a :: t) =
            List.filter (fun e => decide (e.1 = s.1) || q e) t := by
          simp [List.filter_cons, hane, hqa']
        have h2 : List.filter q (a :: t) = List.filter q t := by
          simp [List.filter_cons, hqa']
        rw [h1, h2]
        exact ih hnd' hst

theorem seedGroups_flatten_perm (near : α → α → Bool) (pool : List (ℕ × α))
    (hnd : (pool.map Prod.fst).Nodup) :
    ∀ (seeds : List (ℕ × α)) (used : List ℕ),
      (∀ e ∈ pool, e.1 ∉ used → e ∈ seeds) → (∀ e ∈ seeds, e ∈ pool) →
      ((seedGroups near pool seeds used).flatten).Perm
        (pool.filter (fun e => decide (e.1 ∉ used))) := by
  intro seeds
  induction seeds with
  | nil =>
    intro used h1 _
    have hnil : pool.filter (fun e => decide (e.1 ∉ used)) = [] := by
      rw [List.filter_eq_nil_iff]
      intro e he hp
      exact absurd (h1 e he (of_decide_eq_true hp)) (List.not_mem_nil e)
    have hz : seedGroups near pool [] used = [] := rfl
    rw [hz, hnil]
    exact List.Perm.nil
  | cons s rest ih =>
    intro used h1 h2
    by_cases hs : s.1 ∈ used
    · rw [show seedGroups near pool (s :: rest) used =
          seedGroups near pool rest used by rw [seedGroups, if_pos hs]]
      apply ih
      · intro e he hne
        rcases List.mem_cons.mp (h1 e he hne) with rfl | h
        · exact absurd hs hne
        · exact h
      · intro e he; exact h2 e (List.mem_cons_of_mem s he)
    · have hunf : seedGroups near pool (s :: rest) used =
          (s :: pool.filter
            (fun o => decide (o.1 ∉ used) && decide (o.1 ≠ s.1) && near s.2 o.2)) ::
          seedGroups near pool rest
            (used ++ (s :: pool.filter
              (fun o => decide (o.1 ∉ used) && decide (o.1 ≠ s.1) && near s.2 o.2)).map
              Prod.fst) := by
        rw [seedGroups, if_neg hs]
      rw [hunf, List.flatten_cons]
      set mateCond : (ℕ × α) → Bool :=
        fun o => decide (o.1 ∉ used) && decide (o.1 ≠ s.1) && near s.2 o.2 with hmate
      set mates := pool.filter mateCond with hmates
      set used' := used ++ (s :: mates).map Prod.fst with husedp
      have hsp : s ∈ pool := h2 s (List.mem_cons_self s rest)
      have hrec : ((seedGroups near pool rest used').flatten).Perm
          (pool.filter (fun e => decide (e.1 ∉ used'))) := by
        apply ih
        · intro e he hne
          have hneu : e.1 ∉ used := fun h => hne (List.mem_append_left _ h)
          rcases List.mem_cons.mp (h1 e he hneu) with rfl | h
          · exact absurd (List.mem_append_right _ (by simp)) hne
          · exact h
        · intro e he; exact h2 e (List.mem_cons_of_mem s he)
      set rowF : (ℕ × α) → Bool := fun e => decide (e.1 = s.1) || mateCond e with hrowF
      have hrow : (pool.filter rowF).Perm (s :: mates) := by
        rw [hmates]
        exact filter_or_head_perm mateCond s pool hnd hsp (by simp [hmate])
      have hfilter1 : pool.filter (fun e => rowF e && decide (e.1 ∉ used)) =
          pool.filter rowF := by
        apply List.filter_congr
        intro e he
        by_cases hre : rowF e = true
        · have hnu : e.1 ∉ used := by
            rw [hrowF] at hre
            simp only [Bool.or_eq_true] at hre
            rcases hre with h | h
            · have : e.1 = s.1 := of_decide_eq_true h
              rw [this]; exact hs
            · rw [hmate] at h
              simp only [Bool.and_eq_true] at h
              exact of_decide_eq_true h.1.1
          simp [hre, hnu]
        · simp only [Bool.not_eq_true] at hre
          simp [hre]
      have hfilter2 : pool.filter (fun e => !rowF e && decide (e.1 ∉ used)) =
          pool.filter (fun e => decide (e.1 ∉ used')) := by
        apply List.filter_congr
        intro e he
        by_cases hu : e.1 ∈ used'
        · have hre : rowF e = true ∨ e.1 ∈ used := by
            rcases List.mem_append.mp (husedp ▸ hu) with h | h
            · exact Or.inr h
            · rcases List.mem_map.mp h with ⟨m, hm, hfst⟩
              rcases List.mem_cons.mp hm with rfl | hmm
              · left; rw [hrowF]
                simp [hfst.symm]
              · have hmf := List.mem_filter.mp (hmates ▸ hmm)
                have hme : m = e := idx_unique hnd hmf.1 he hfst
                left
                rw [hrowF]
                simp only [Bool.or_eq_true]
                right
                rw [← hme]
                exact hmf.2
          have hleft : (!rowF e && decide (e.1 ∉ used)) = false := by
            rcases hre with h | h
            · simp [h]
            · simp [h]
          rw [hleft]
          simp [hu]
        · have hnu : e.1 ∉ used := fun h => hu (List.mem_append_left _ h)
          have hnr : rowF e = false := by
            rw [Bool.eq_false_iff]
            intro hre
            rw [hrowF] at hre
            simp only [Bool.or_eq_true] at hre
            rcases hre with h | h
            · have : e.1 = s.1 := of_decide_eq_true h
              exact hu (List.mem_append_right _ (by simp [this]))
            · have he' : e ∈ mates := by
                rw [hmates]
                exact List.mem_filter.mpr ⟨he, hmate ▸ h⟩
              refine hu (List.mem_append_right _ ?_)
              simp only [List.map_cons, List.mem_cons]
              right
              exact List.mem_map_of_mem Prod.fst he'
          simp [hnr, hnu, hu]
      have hsplit := List.filter_append_perm rowF
        (pool.filter (fun e => decide (e.1 ∉ used)))
      rw [List.filter_filter, List.filter_filter, hfilter1, hfilter2] at hsplit
      exact ((hrec.append_left (s :: mates)).trans
        ((hrow.symm.append_right _))).trans hsplit

theorem flatten_map_perm (l : List (List α)) (f : List α → List α)
    (h : ∀ x ∈ l, (f x).Perm x) : ((l.map f).flatten).Perm l.flatten := by
  induction l with
  | nil => simp
  | cons a t ih =>
    simp only [List.map_cons, List.flatten_cons]
    exact (h a (List.mem_cons_self a t)).append
      (ih (fun x hx => h x (List.mem_cons_of_mem a hx)))

theorem rowsPipeline_perm (near : α → α → Bool)
    (leSeed leIn : (ℕ × α) → (ℕ × α) → Bool)
    (leRows : List (ℕ × α) → List (ℕ × α) → Bool) (pool : List (ℕ × α))
    (hnd : (pool.map Prod.fst).Nodup) :
    ((stableSort leRows ((seedGroups near pool (stableSort leSeed pool) []).map
      (stableSort leIn))).flatten).Perm pool := by
  have hseeds : (stableSort leSeed pool).Perm pool := stableSort_perm _ _
  have hrows := seedGroups_flatten_perm near pool hnd (stableSort leSeed pool) []
    (fun e he _ => hseeds.mem_iff.mpr he) (fun e he => hseeds.mem_iff.mp he)
  have hfid : pool.filter (fun e => decide (e.1 ∉ ([] : List ℕ))) = pool := by
    apply List.filter_eq_self.mpr
    intro e _
    simp
  rw [hfid] at hrows
  refine ((stableSort_perm leRows _).flatten).trans ?_
  exact (flatten_map_perm _ _ (fun x _ => stableSort_perm leIn x)).trans hrows

theorem map_comp_enum_build (l : List β) (build : ℕ × β → γ) (f : γ → δ)
    (g : β → δ) (h : ∀ e, f (build e) = g e.2) :
    ((l.enum.map build).map f) = l.map g := by
  rw [List.map_map]
  have : (f ∘ build) = fun e : ℕ × β => g e.2 := funext h
  rw [this, enum_map_val]

theorem enum_build_fst (l : List β) (build : ℕ × β → γ) (proj : γ → ℕ)
    (h : ∀ e, proj (build e) = e.1) :
    ((l.enum.map build).map proj) = List.range l.length := by
  rw [List.map_map]
  have : (proj ∘ build) = Prod.fst := funext h
  rw [this, List.enum_map_fst]

/-! ### Facts about `sort_by_reading_order` -/

theorem rowSortCore_strip_perm (rs : List TextRegion) :
    ((rowSortCore rs).map stripOrder).Perm (rs.map stripOrder) := by
  have hperm := rowsPipeline_perm
    (fun s o => decide (|s.y1 - o.y1| ≤
      max 15 (min (((rs.map (fun r => r.y2 - r.y1)).sum / (rs.length : ℚ)) * (6/10))
        ((listMaxQ (rs.map (fun r => r.y1)) - listMinQ (rs.map (fun r => r.y1))) *
          (8/100)))))
    (fun a b => decide (a.2.y1 ≤ b.2.y1)) rowItemLe
    (fun r1 r2 => decide (listMinQ (r1.map (fun e => e.2.y1)) ≤
      listMinQ (r2.map (fun e => e.2.y1))))
    rs.enum (enum_fst_nodup rs)
  have hmap := hperm.map (fun e : ℕ × TextRegion => stripOrder e.2)
  rw [enum_map_val rs stripOrder] at hmap
  have hrw : ((rowSortCore rs).map stripOrder) =
      ((stableSort (fun r1 r2 => decide (listMinQ (r1.map (fun e => e.2.y1)) ≤
        listMinQ (r2.map (fun e => e.2.y1))))
        ((seedGroups (fun s o => decide (|s.y1 - o.y1| ≤
          max 15 (min (((rs.map (fun r => r.y2 - r.y1)).sum / (rs.length : ℚ)) * (6/10))
            ((listMaxQ (rs.map (fun r => r.y1)) - listMinQ (rs.map (fun r => r.y1))) *
              (8/100))))) rs.enum
          (stableSort (fun a b => decide (a.2.y1 ≤ b.2.y1)) rs.enum) []).map
          (stableSort rowItemLe))).flatten.map
        (fun e : ℕ × TextRegion => stripOrder e.2)) := by
    rw [rowSortCore]
    exact (map_comp_enum_build _ _ stripOrder _ (fun e => rfl))
  rw [hrw]
  exact hmap

theorem rowSortCore_orders (rs : List TextRegion) :
    (rowSortCore rs).map TextRegion.readingOrder = List.range rs.length := by
  have hlen : (rowSortCore rs).length = rs.length := by
    have h1 := (rowSortCore_strip_perm rs).length_eq
    simpa using h1
  have : (rowSortCore rs).map TextRegion.readingOrder =
      List.range (rowSortCore rs).length := by
    rw [rowSortCore]
    have h2 := enum_build_fst
      ((stableSort (fun r1 r2 => decide (listMinQ (r1.map (fun e => e.2.y1)) ≤
        listMinQ (r2.map (fun e => e.2.y1))))
        ((seedGroups (fun s o => decide (|s.y1 - o.y1| ≤
          max 15 (min (((rs.map (fun r => r.y2 - r.y1)).sum / (rs.length : ℚ)) * (6/10))
            ((listMaxQ (rs.map (fun r => r.y1)) - listMinQ (rs.map (fun r => r.y1))) *
              (8/100))))) rs.enum
          (stableSort (fun a b => decide (a.2.y1 ≤ b.2.y1)) rs.enum) []).map
          (stableSort rowItemLe))).flatten)
      (fun e => { e.2.2 with readingOrder := e.1 }) TextRegion.readingOrder
      (fun e => rfl)
    rw [h2]
    congr 1
    simp [rowSortCore]
  rw [this, hlen]

theorem sort_strip_perm (rs : List TextRegion) :
    ((sort_by_reading_order rs).map stripOrder).Perm (rs.map stripOrder) := by
  match rs with
  | [] => simp [sort_by_reading_order]
  | [r] => simp [sort_by_reading_order, stripOrder]
  | a :: b :: t =>
    exact rowSortCore_strip_perm (a :: b :: t)

theorem sort_orders (rs : List TextRegion) :
    (sort_by_reading_order rs).map TextRegion.readingOrder = List.range rs.length := by
  match rs with
  | [] => simp [sort_by_reading_order]
  | [r] => simp [sort_by_reading_order, List.range_succ]
  | a :: b :: t =>
    exact rowSortCore_orders (a :: b :: t)

theorem sort_length (rs : List TextRegion) :
    (sort_by_reading_order rs).length = rs.length := by
  have h := (sort_strip_perm rs).length_eq
  simpa using h

/-! ### Facts about `detect_panels` -/

/-- All fields of a panel except its reading order. -/
def stripPanel (p : Panel) : ℚ × ℚ × ℚ × ℚ × List TextRegion :=
  (p.x1, p.y1, p.x2, p.y2, p.textRegions)

theorem orderPanels_strip_perm (P : List Panel) :
    ((orderPanels P).map stripPanel).Perm (P.map stripPanel) := by
  have hperm := rowsPipeline_perm
    (fun s o => decide (|s.y1 - o.y1| ≤
      max 20 (min (((P.map (fun p => p.y2 - p.y1)).sum / (P.length : ℚ)) * (6/10))
        ((listMaxQ (P.map (fun p => p.y1)) - listMinQ (P.map (fun p => p.y1))) *
          (8/100)))))
    (fun a b => decide (a.2.y1 ≤ b.2.y1)) panelItemLe
    (fun r1 r2 => decide (listMinQ (r1.map (fun e => e.2.y1)) ≤
      listMinQ (r2.map (fun e => e.2.y1))))
    P.enum (enum_fst_nodup P)
  have hmap := hperm.map (fun e : ℕ × Panel => stripPanel e.2)
  rw [enum_map_val P stripPanel] at hmap
  have hrw : ((orderPanels P).map stripPanel) =
      ((stableSort (fun r1 r2 => decide (listMinQ (r1.map (fun e => e.2.y1)) ≤
        listMinQ (r2.map (fun e => e.2.y1))))
        ((seedGroups (fun s o => decide (|s.y1 - o.y1| ≤
          max 20 (min (((P.map (fun p => p.y2 - p.y1)).sum / (P.length : ℚ)) * (6/10))
            ((listMaxQ (P.map (fun p => p.y1)) - listMinQ (P.map (fun p => p.y1))) *
              (8/100))))) P.enum
          (stableSort (fun a b => decide (a.2.y1 ≤ b.2.y1)) P.enum) []).map
          (stableSort panelItemLe))).flatten.map
        (fun e : ℕ × Panel => stripPanel e.2)) := by
    rw [orderPanels]
    exact (map_comp_enum_build _ _ stripPanel _ (fun e => rfl))
  rw [hrw]
  exact hmap

theorem orderPanels_length (P : List Panel) :
    (orderPanels P).length = P.length := by
  have h := (orderPanels_strip_perm P).length_eq
  simpa using h

theorem orderPanels_orders (P : List Panel) :
    (orderPanels P).map Panel.readingOrder = List.range (orderPanels P).length := by
  rw [orderPanels_length]
  rw [orderPanels]
  have h2 := enum_build_fst
    ((stableSort (fun r1 r2 => decide (listMinQ (r1.map (fun e => e.2.y1)) ≤
      listMinQ (r2.map (fun e => e.2.y1))))
      ((seedGroups (fun s o => decide (|s.y1 - o.y1| ≤
        max 20 (min (((P.map (fun p => p.y2 - p.y1)).sum / (P.length : ℚ)) * (6/10))
          ((listMaxQ (P.map (fun p => p.y1)) - listMinQ (P.map (fun p => p.y1))) *
            (8/100))))) P.enum
        (stableSort (fun a b => decide (a.2.y1 ≤ b.2.y1)) P.enum) []).map
        (stableSort panelItemLe))).flatten)
    (fun e => { e.2.2 with readingOrder := e.1 }) Panel.readingOrder
    (fun e => rfl)
  rw [h2]
  congr 1
  have hperm := rowsPipeline_perm
    (fun s o => decide (|s.y1 - o.y1| ≤
      max 20 (min (((P.map (fun p => p.y2 - p.y1)).sum / (P.length : ℚ)) * (6/10))
        ((listMaxQ (P.map (fun p => p.y1)) - listMinQ (P.map (fun p => p.y1))) *
          (8/100)))))
    (fun a b => decide (a.2.y1 ≤ b.2.y1)) panelItemLe
    (fun r1 r2 => decide (listMinQ (r1.map (fun e => e.2.y1)) ≤
      listMinQ (r2.map (fun e => e.2.y1))))
    P.enum (enum_fst_nodup P)
  have := hperm.length_eq
  simpa using this

theorem orderPanels_mem (P : List Panel) {p : Panel} (hp : p ∈ orderPanels P) :
    ∃ q ∈ P, stripPanel q = stripPanel p := by
  have h1 : stripPanel p ∈ (orderPanels P).map stripPanel :=
    List.mem_map_of_mem stripPanel hp
  have h2 := (orderPanels_strip_perm P).mem_iff.mp h1
  rcases List.mem_map.mp h2 with ⟨q, hq, he⟩
  exact ⟨q, hq, he⟩

theorem orderPanels_members_perm (P : List Panel) :
    ((orderPanels P).map Panel.textRegions).Perm (P.map Panel.textRegions) := by
  have h := (orderPanels_strip_perm P).map
    (fun t : ℚ × ℚ × ℚ × ℚ × List TextRegion => t.2.2.2.2)
  rw [List.map_map, List.map_map] at h
  have he : ((fun t : ℚ × ℚ × ℚ × ℚ × List TextRegion => t.2.2.2.2) ∘ stripPanel)
      = Panel.textRegions := rfl
  rw [he] at h
  exact h

theorem seedGroups_ne_nil (near : α → α → Bool) (pool : List (ℕ × α)) :
    ∀ (seeds : List (ℕ × α)) (used : List ℕ),
      ∀ g ∈ seedGroups near pool seeds used, g ≠ [] := by
  intro seeds
  induction seeds with
  | nil => intro used g hg; rw [show seedGroups near pool [] used = [] from rfl] at hg; cases hg
  | cons s rest ih =>
    intro used g hg
    by_cases hs : s.1 ∈ used
    · rw [show seedGroups near pool (s :: rest) used =
        seedGroups near pool rest used by rw [seedGroups, if_pos hs]] at hg
      exact ih used g hg
    · rw [show seedGroups near pool (s :: rest) used =
          (s :: pool.filter
            (fun o => decide (o.1 ∉ used) && decide (o.1 ≠ s.1) && near s.2 o.2)) ::
          seedGroups near pool rest
            (used ++ (s :: pool.filter
              (fun o => decide (o.1 ∉ used) && decide (o.1 ≠ s.1) && near s.2 o.2)).map
              Prod.fst) by rw [seedGroups, if_neg hs]] at hg
      rcases List.mem_cons.mp hg with rfl | h
      · exact List.cons_ne_nil _ _
      · exact ih _ g h

theorem panelGroups_ne_nil (rs : List TextRegion) :
    ∀ g ∈ panelGroups rs, g ≠ [] := by
  intro g hg
  rw [panelGroups] at hg
  exact seedGroups_ne_nil _ _ _ _ g hg

theorem buildPanelObjects_eq (rs : List TextRegion) :
    buildPanelObjects rs =
      (panelGroups rs).map (fun g => panelOf (g.map Prod.snd)) := by
  rw [buildPanelObjects]
  congr 1
  apply List.filter_eq_self.mpr
  intro g hg
  have h := panelGroups_ne_nil rs g hg
  simpa using h

theorem panelGroups_flatten_perm (rs : List TextRegion) :
    (((panelGroups rs).flatten).map Prod.snd).Perm rs := by
  rw [panelGroups]
  have h := seedGroups_flatten_perm
    (fun s o => decide (|cX s - cX o| ≤ (panelThresholds rs).1) &&
      decide (|cY s - cY o| ≤ (panelThresholds rs).2))
    rs.enum (enum_fst_nodup rs) rs.enum []
    (fun e he _ => he) (fun e he => he)
  have hfid : rs.enum.filter (fun e => decide (e.1 ∉ ([] : List ℕ))) = rs.enum := by
    apply List.filter_eq_self.mpr
    intro e _
    simp
  rw [hfid] at h
  have := h.map (Prod.snd : ℕ × TextRegion → TextRegion)
  rw [List.enum_map_snd] at this
  exact this

theorem flatten_map_map_perm (l : List β) (f g : β → List α)
    (h : ∀ x ∈ l, (f x).Perm (g x)) :
    ((l.map f).flatten).Perm ((l.map g).flatten) := by
  induction l with
  | nil => simp
  | cons a t ih =>
    simp only [List.map_cons, List.flatten_cons]
    exact (h a (List.mem_cons_self a t)).append
      (ih (fun x hx => h x (List.mem_cons_of_mem a hx)))

theorem sort_mem_ex {gm : List TextRegion} {r : TextRegion}
    (hr : r ∈ sort_by_reading_order gm) : ∃ r0 ∈ gm, stripOrder r0 = stripOrder r := by
  have h1 : stripOrder r ∈ (sort_by_reading_order gm).map stripOrder :=
    List.mem_map_of_mem stripOrder hr
  have h2 := (sort_strip_perm gm).mem_iff.mp h1
  rcases List.mem_map.mp h2 with ⟨r0, h0, he⟩
  exact ⟨r0, h0, he⟩

theorem panelOf_contains (gm : List TextRegion) :
    ∀ r ∈ (panelOf gm).textRegions,
      (panelOf gm).x1 ≤ r.x1 ∧ (panelOf gm).y1 ≤ r.y1 ∧
      r.x2 ≤ (panelOf gm).x2 ∧ r.y2 ≤ (panelOf gm).y2 := by
  intro r hr
  rcases sort_mem_ex (by simpa [panelOf] using hr) with ⟨r0, h0, he⟩
  simp only [stripOrder, Prod.mk.injEq] at he
  refine ⟨?_, ?_, ?_, ?_⟩
  · rw [panelOf, ← he.1]
    exact listMinQ_le (List.mem_map_of_mem (fun r => r.x1) h0)
  · rw [panelOf, ← he.2.1]
    exact listMinQ_le (List.mem_map_of_mem (fun r => r.y1) h0)
  · rw [panelOf, ← he.2.2.1]
    exact le_listMaxQ (List.mem_map_of_mem (fun r => r.x2) h0)
  · rw [panelOf, ← he.2.2.2.1]
    exact le_listMaxQ (List.mem_map_of_mem (fun r => r.y2) h0)

theorem fallback_panel_eq (rs : List TextRegion) :
    ({ x1 := listMinQ (rs.map (fun r => r.x1)),
       y1 := listMinQ (rs.map (fun r => r.y1)),
       x2 := listMaxQ (rs.map (fun r => r.x2)),
       y2 := listMaxQ (rs.map (fun r => r.y2)),
       textRegions := sort_by_reading_order rs, readingOrder := 0 } : Panel) =
    panelOf rs := rfl

theorem detect_members_flatten_perm (rs : List TextRegion) :
    ((((detect_panels rs).map Panel.textRegions).flatten).map stripOrder).Perm
      (rs.map stripOrder) := by
  match rs with
  | [] => simp [detect_panels]
  | [r] => simp [detect_panels]
  | a :: b :: t =>
    show ((((detectPanelsMulti (a :: b :: t)).map Panel.textRegions).flatten).map
      stripOrder).Perm _
    rw [detectPanelsMulti]
    by_cases hc : (buildPanelObjects (a :: b :: t)).length ≤ 1
    · rw [if_pos hc]
      simp only [List.map_cons, List.map_nil, List.flatten_cons, List.flatten_nil,
        List.append_nil]
      exact sort_strip_perm (a :: b :: t)
    · rw [if_neg hc]
      set rs' := a :: b :: t with hrs
      refine ((List.Perm.flatten ((orderPanels_members_perm
        (buildPanelObjects rs')))).map stripOrder).trans ?_
      rw [buildPanelObjects_eq, List.map_map]
      have hcomp : (Panel.textRegions ∘ fun g : List (ℕ × TextRegion) =>
          panelOf (g.map Prod.snd)) =
          fun g : List (ℕ × TextRegion) => sort_by_reading_order (g.map Prod.snd) := rfl
      rw [hcomp]
      rw [List.map_flatten]
      rw [List.map_map]
      have hstep := flatten_map_map_perm (panelGroups rs')
        (fun g => ((sort_by_reading_order (g.map Prod.snd)).map stripOrder))
        (fun g => ((g.map Prod.snd).map stripOrder))
        (fun g _ => (sort_strip_perm (g.map Prod.snd)).trans (List.Perm.refl _))
      have hcomp2 : ((List.map stripOrder) ∘ fun g : List (ℕ × TextRegion) =>
          sort_by_reading_order (g.map Prod.snd)) =
          fun g : List (ℕ × TextRegion) =>
            (sort_by_reading_order (g.map Prod.snd)).map stripOrder := rfl
      rw [hcomp2]
      refine hstep.trans ?_
      have hcomp3 : (fun g : List (ℕ × TextRegion) => (g.map Prod.snd).map stripOrder) =
          (List.map stripOrder) ∘ (List.map (Prod.snd : ℕ × TextRegion → TextRegion)) :=
        rfl
      rw [hcomp3, ← List.map_map, ← List.map_flatten, ← List.map_flatten]
      exact (panelGroups_flatten_perm rs').map stripOrder

theorem detect_orders (rs : List TextRegion) :
    (detect_panels rs).map Panel.readingOrder =
      List.range (detect_panels rs).length := by
  match rs with
  | [] => simp [detect_panels]
  | [r] =>
    simp only [detect_panels, List.map_cons, List.map_nil, List.length_cons,
      List.length_nil]
    rfl
  | a :: b :: t =>
    have hd : detect_panels (a :: b :: t) = detectPanelsMulti (a :: b :: t) := rfl
    rw [hd, detectPanelsMulti]
    by_cases hc : (buildPanelObjects (a :: b :: t)).length ≤ 1
    · rw [if_pos hc]
      rfl
    · rw [if_neg hc]
      exact orderPanels_orders (buildPanelObjects (a :: b :: t))

theorem detect_contains (rs : List TextRegion) :
    ∀ p ∈ detect_panels rs, ∀ r ∈ p.textRegions,
      p.x1 ≤ r.x1 ∧ p.y1 ≤ r.y1 ∧ r.x2 ≤ p.x2 ∧ r.y2 ≤ p.y2 := by
  match rs with
  | [] => intro p hp; cases hp
  | [r0] =>
    intro p hp r hr
    rcases List.mem_cons.mp hp with rfl | h
    · rcases List.mem_cons.mp hr with rfl | h2
      · exact ⟨le_refl _, le_refl _, le_refl _, le_refl _⟩
      · cases h2
    · cases h
  | a :: b :: t =>
    intro p hp r hr
    have hp' : p ∈ detectPanelsMulti (a :: b :: t) := hp
    rw [detectPanelsMulti] at hp'
    by_cases hc : (buildPanelObjects (a :: b :: t)).length ≤ 1
    · rw [if_pos hc] at hp'
      rcases List.mem_cons.mp hp' with rfl | h
      · rw [fallback_panel_eq] at hr ⊢
        exact panelOf_contains (a :: b :: t) r hr
      · cases h
    · rw [if_neg hc] at hp'
      rcases orderPanels_mem _ hp' with ⟨q, hq, he⟩
      rw [buildPanelObjects_eq] at hq
      rcases List.mem_map.mp hq with ⟨g, _, rfl⟩
      simp only [stripPanel, Prod.mk.injEq] at he
      have hm : r ∈ (panelOf (g.map Prod.snd)).textRegions := by
        rw [he.2.2.2.2]; exact hr
      have hcont := panelOf_contains (g.map Prod.snd) r hm
      rw [← he.1, ← he.2.1, ← he.2.2.1, ← he.2.2.2.1]
      exact hcont

/-! ### Facts about the pipeline composition step -/

theorem run_ocr_loop_skip (recognize : TextRegion → Option OCRResult)
    (l : List TextRegion) :
    run_ocr_loop recognize true l = Except.ok
      (l.map (fun r => match recognize r with
        | some res => res
        | none => { text := "", confidence := 0, region := r }), l) := by
  induction l with
  | nil => rfl
  | cons a t ih =>
    rw [run_ocr_loop]
    cases h : recognize a with
    | some res => rw [ih]; simp [h]
    | none => rw [if_pos rfl, ih]; simp [h]

theorem run_ocr_loop_ok_regions (recognize : TextRegion → Option OCRResult)
    (se : Bool) (l : List TextRegion) (res : List OCRResult × List TextRegion)
    (h : run_ocr_loop recognize se l = Except.ok res) : res.2 = l := by
  induction l generalizing res with
  | nil =>
    rw [run_ocr_loop] at h
    cases h
    rfl
  | cons a t ih =>
    rw [run_ocr_loop] at h
    cases hr : recognize a with
    | some r0 =>
      rw [hr] at h
      cases hrec : run_ocr_loop recognize se t with
      | ok res' =>
        rw [hrec] at h
        cases h
        simp [ih res' hrec]
      | error e => rw [hrec] at h; cases h
    | none =>
      rw [hr] at h
      cases se with
      | true =>
        rw [if_pos rfl] at h
        cases hrec : run_ocr_loop recognize true t with
        | ok res' =>
          rw [hrec] at h
          cases h
          simp [ih res' hrec]
        | error e => rw [hrec] at h; cases h
      | false =>
        rw [if_neg (by simp)] at h
        cases h

theorem run_ocr_loop_abort (recognize : TextRegion → Option OCRResult)
    (l : List TextRegion) (h : ∃ r ∈ l, recognize r = none) :
    run_ocr_loop recognize false l = Except.error () := by
  induction l with
  | nil => rcases h with ⟨r, hr, _⟩; cases hr
  | cons a t ih =>
    rw [run_ocr_loop]
    cases hr : recognize a with
    | some r0 =>
      rcases h with ⟨r, hrm, hnone⟩
      rcases List.mem_cons.mp hrm with rfl | hmem
      · rw [hr] at hnone; cases hnone
      · rw [ih ⟨r, hmem, hnone⟩]
    | none => rw [if_neg (by simp)]

theorem compose_orders (panels : List Panel) :
    (compose_panel_regions panels).map TextRegion.readingOrder =
      (panels.map (fun p => (List.range p.textRegions.length).map
        (fun i => p.readingOrder * 1000 + i))).flatten := by
  rw [compose_panel_regions, List.map_flatten, List.map_map]
  congr 1
  have hpt : ∀ p : Panel,
      ((p.textRegions.enum.map
        (fun e => { e.2 with readingOrder := p.readingOrder * 1000 + e.1 })).map
        TextRegion.readingOrder) =
      (List.range p.textRegions.length).map (fun i => p.readingOrder * 1000 + i) := by
    intro p
    rw [List.map_map]
    have h1 : (TextRegion.readingOrder ∘ fun e : ℕ × TextRegion =>
        { e.2 with readingOrder := p.readingOrder * 1000 + e.1 }) =
        ((fun i => p.readingOrder * 1000 + i) ∘ Prod.fst) := rfl
    rw [h1, ← List.map_map, List.enum_map_fst]
  have hfe : (List.map TextRegion.readingOrder ∘ fun p : Panel =>
      p.textRegions.enum.map
        (fun e => { e.2 with readingOrder := p.readingOrder * 1000 + e.1 })) =
      fun p : Panel => (List.range p.textRegions.length).map
        (fun i => p.readingOrder * 1000 + i) :=
    funext hpt
  rw [hfe]

theorem compose_keys_nodup (panels : List Panel)
    (hlen : ∀ p ∈ panels, p.textRegions.length < 1000)
    (hnd : (panels.map Panel.readingOrder).Nodup) :
    ((compose_panel_regions panels).map TextRegion.readingOrder).Nodup := by
  rw [compose_orders, ← List.flatMap_def]
  apply List.nodup_flatMap.mpr
  constructor
  · intro p _
    exact List.Nodup.map (fun i j h => Nat.add_left_cancel h) (List.nodup_range _)
  · have hpw : panels.Pairwise (fun p q => p.readingOrder ≠ q.readingOrder) :=
      List.pairwise_map.mp hnd
    apply hpw.imp_of_mem
    intro p q hp hq hne
    intro k hk1 hk2
    rcases List.mem_map.mp hk1 with ⟨i, hi, rfl⟩
    rcases List.mem_map.mp hk2 with ⟨j, hj, he⟩
    have hi' : i < 1000 := lt_trans (List.mem_range.mp hi) (hlen p hp)
    have hj' : j < 1000 := lt_trans (List.mem_range.mp hj) (hlen q hq)
    apply hne
    have h1 : (p.readingOrder * 1000 + i) / 1000 = p.readingOrder := by
      rw [Nat.mul_comm p.readingOrder 1000, Nat.mul_add_div (by norm_num),
        Nat.div_eq_of_lt hi', Nat.add_zero]
    have h2 : (q.readingOrder * 1000 + j) / 1000 = q.readingOrder := by
      rw [Nat.mul_comm q.readingOrder 1000, Nat.mul_add_div (by norm_num),
        Nat.div_eq_of_lt hj', Nat.add_zero]
    rw [← h1, ← h2, he]

/-! ### Spec-side definitions, written from the specification's wording -/

/-- Top edge of a region, spec `topY = y1`. -/
def topY (r : TextRegion) : ℚ := r.y1

/-- Right edge of a region, spec `rightX = x2`. -/
def rightX (r : TextRegion) : ℚ := r.x2

/-- Height of a region, spec `height = y2 - y1`. -/
def regionHeight (r : TextRegion) : ℚ := r.y2 - r.y1

/-- Spec 4.1: `rowThreshold = max(15, min(avgHeight * 0.6,
imageHeightEstimate * 0.08))` with `imageHeightEstimate = max(topY) - min(topY)`
and `avgHeight` the mean region height. -/
def specRowThreshold (regions : List TextRegion) : ℚ :=
  let avgHeight := (regions.map regionHeight).sum / (regions.length : ℚ)
  let imageHeightEstimate :=
    listMaxQ (regions.map topY) - listMinQ (regions.map topY)
  max 15 (min (avgHeight * (6/10)) (imageHeightEstimate * (8/100)))

/-- Spec 4.1 row assembly: repeatedly take the first not-yet-assigned region
(in ascending `topY` order) as a row seed, scan all remaining unassigned
regions and add every one whose `topY` differs from the seed's by at most
the threshold, mark all of them assigned. -/
def specAssignRows (thr : ℚ) (pool : List (ℕ × TextRegion)) :
    List (ℕ × TextRegion) → List ℕ → List (List (ℕ × TextRegion))
  | [], _ => []
  | seed :: others, assigned =>
    if seed.1 ∈ assigned then specAssignRows thr pool others assigned
    else
      let rowMates := pool.filter (fun o => decide (o.1 ∉ assigned) &&
        decide (o.1 ≠ seed.1) && decide (|topY seed.2 - topY o.2| ≤ thr))
      (seed :: rowMates) ::
        specAssignRows thr pool others (assigned ++ (seed :: rowMates).map Prod.fst)

/-- Spec 4.1 within-row order: `rightX` descending, ties by `topY`
ascending. -/
def specWithinRowLe (a b : ℕ × TextRegion) : Bool :=
  decide (rightX b.2 < rightX a.2) ||
    (decide (rightX a.2 = rightX b.2) && decide (topY a.2 ≤ topY b.2))

/-- RegionRowSorter `sort` as described by spec 4.1: row grouping by the
seed-rescan policy at `specRowThreshold`, rows ordered by minimum `topY`,
rows sorted internally by `specWithinRowLe`, flattened with `readingOrder`
assigned sequentially from 0. -/
def specRowSort (regions : List TextRegion) : List TextRegion :=
  match regions with
  | [] => []
  | [r] => [{ r with readingOrder := 0 }]
  | _ :: _ :: _ =>
    let indexed := regions.enum
    let thr := specRowThreshold regions
    let byTopY := stableSort (fun a b => decide (topY a.2 ≤ topY b.2)) indexed
    let rows := specAssignRows thr indexed byTopY []
    let rowsSorted := rows.map (stableSort specWithinRowLe)
    let rowsOrdered := stableSort
      (fun r1 r2 => decide (listMinQ (r1.map (fun e => topY e.2)) ≤
        listMinQ (r2.map (fun e => topY e.2)))) rowsSorted
    (rowsOrdered.flatten.enum).map (fun e => { e.2.2 with readingOrder := e.1 })

/-- ReadingOrderComposer's `usePanels` decision as described by spec 4.3:
false when the panel list is empty, false when there is exactly one panel,
false when `|panels| > 0.8 * regionCount` while `regionCount > 2`, and true
otherwise. -/
def usePanelsSpec (panels : List Panel) (regions : List TextRegion) : Bool :=
  !(decide (panels = []) || decide (panels.length = 1) ||
    (decide ((panels.length : ℚ) > (4/5) * (regions.length : ℚ)) &&
      decide (2 < regions.length)))

/-- Modelled from the spec: spec 4.2's clustering radius
`eps = avgHeight * 1.8` (the repository's code has no such quantity). -/
def specEps (regions : List TextRegion) : ℚ :=
  ((regions.map regionHeight).sum / (regions.length : ℚ)) * (9/5)

/-- Modelled from the spec: two regions are directly connected when their
centers are within `eps` (squared Euclidean distance at most `eps ^ 2`). -/
def specLinked (eps : ℚ) (a b : TextRegion) : Bool :=
  decide ((cX a - cX b) ^ 2 + (cY a - cY b) ^ 2 ≤ eps ^ 2)

/-- Modelled from the spec: grow one cluster to its maximal connected set by
repeatedly absorbing the still-unclustered regions linked to a member. -/
def specGrow (eps : ℚ) : ℕ → List TextRegion → List TextRegion →
    (List TextRegion × List TextRegion)
  | 0, comp, rest => (comp, rest)
  | fuel + 1, comp, rest =>
    let newMembers := rest.filter (fun r => comp.any (fun c => specLinked eps c r))
    if newMembers.isEmpty then (comp, rest)
    else specGrow eps fuel (comp ++ newMembers)
      (rest.filter (fun r => !(comp.any (fun c => specLinked eps c r))))

/-- Modelled from the spec: peel off maximal connected components one at a
time. -/
def specClustersAux (eps : ℚ) : ℕ → List TextRegion → List (List TextRegion)
  | 0, _ => []
  | _ + 1, [] => []
  | fuel + 1, r :: rest =>
    let grown := specGrow eps rest.length [r] rest
    grown.1 :: specClustersAux eps fuel grown.2

/-- Modelled from the spec: spec 4.2's density-based spatial clustering of
the region centers with radius `eps = avgHeight * 1.8` — each cluster a
maximal set connected through center distances at most `eps`
(single-linkage; `minClusterSize = 1`).  The repository's `detect_panels`
implements no such clustering, so this is built from the spec's words to
compare against the code. -/
def specDensityClusters (regions : List TextRegion) : List (List TextRegion) :=
  specClustersAux (specEps regions) regions.length regions

/-- Modelled from the spec: horizontal center of a panel bbox. -/
def panelCx (p : Panel) : ℚ := (p.x1 + p.x2) / 2

/-- Modelled from the spec: vertical center of a panel bbox. -/
def panelCy (p : Panel) : ℚ := (p.y1 + p.y2) / 2

/-- Modelled from the spec: spec 4.2 step 5's sequential row walk — compare
each panel (in ascending `cy` order) to the current row's first panel's
`cy`; within the threshold append, otherwise close the row and seed a new
one. -/
def specSeqRowsAux (thr : ℚ) (currentRow : List Panel) (firstCy : ℚ) :
    List Panel → List (List Panel)
  | [] => [currentRow]
  | p :: rest =>
    if |panelCy p - firstCy| ≤ thr then
      specSeqRowsAux thr (currentRow ++ [p]) firstCy rest
    else currentRow :: specSeqRowsAux thr [p] (panelCy p) rest

/-- Modelled from the spec: spec 4.2 step 5's panel ordering — sort panels
ascending by `cy`; `rowThreshold = (maxCy - minCy) * 0.15` when the spread
is positive, else `avgHeight`; group rows by the sequential walk; sort each
row by `cx` descending; flatten and assign `readingOrder = 0..m-1`.  The
repository's code orders panels differently, so this is built from the
spec's words to compare against the code. -/
def specOrderPanelsCy (avgHeight : ℚ) (panels : List Panel) : List Panel :=
  match stableSort (fun a b => decide (panelCy a ≤ panelCy b)) panels with
  | [] => []
  | p :: rest =>
    let cys := (p :: rest).map panelCy
    let spread := listMaxQ cys - listMinQ cys
    let thr := if 0 < spread then spread * (3/20) else avgHeight
    let rows := specSeqRowsAux thr [p] (panelCy p) rest
    let rowsSorted := rows.map (stableSort (fun a b => decide (panelCx b ≤ panelCx a)))
    ((rowsSorted.flatten).enum).map (fun e => { e.2 with readingOrder := e.1 })

/-- Top edge of a panel bbox. -/
def panelTopY (p : Panel) : ℚ := p.y1

/-- Right edge of a panel bbox. -/
def panelRightX (p : Panel) : ℚ := p.x2

/-- Amended panel-row threshold, written from the code's actual behaviour:
`max(20, min(avgPanelHeight * 0.6, (maxTopY - minTopY) * 0.08))`. -/
def specPanelRowThreshold (panels : List Panel) : ℚ :=
  let avgPanelHeight := (panels.map (fun p => p.y2 - p.y1)).sum / (panels.length : ℚ)
  let spread := listMaxQ (panels.map panelTopY) - listMinQ (panels.map panelTopY)
  max 20 (min (avgPanelHeight * (6/10)) (spread * (8/100)))

/-- Amended panel-row assembly: the same seed-rescan policy as the region
rows, on panel top edges. -/
def specAssignPanelRows (thr : ℚ) (pool : List (ℕ × Panel)) :
    List (ℕ × Panel) → List ℕ → List (List (ℕ × Panel))
  | [], _ => []
  | seed :: others, assigned =>
    if seed.1 ∈ assigned then specAssignPanelRows thr pool others assigned
    else
      let rowMates := pool.filter (fun o => decide (o.1 ∉ assigned) &&
        decide (o.1 ≠ seed.1) &&
        decide (|panelTopY seed.2 - panelTopY o.2| ≤ thr))
      (seed :: rowMates) :: specAssignPanelRows thr pool others
        (assigned ++ (seed :: rowMates).map Prod.fst)

/-- Amended panel ordering, written from the code's behaviour: seed-rescan
rows on `topY` at `specPanelRowThreshold` (seeds in ascending `topY`), rows
ordered by minimum `topY`, each row sorted by `rightX` descending with ties
by `topY` ascending, flattened with `readingOrder = 0..m-1`. -/
def specOrderPanelsTopY (panels : List Panel) : List Panel :=
  let indexed := panels.enum
  let thr := specPanelRowThreshold panels
  let byTopY := stableSort (fun a b => decide (panelTopY a.2 ≤ panelTopY b.2)) indexed
  let rows := specAssignPanelRows thr indexed byTopY []
  let rowsSorted := rows.map (stableSort (fun a b =>
    decide (panelRightX b.2 < panelRightX a.2) ||
      (decide (panelRightX a.2 = panelRightX b.2) &&
        decide (panelTopY a.2 ≤ panelTopY b.2))))
  let rowsOrdered := stableSort
    (fun r1 r2 => decide (listMinQ (r1.map (fun e => panelTopY e.2)) ≤
      listMinQ (r2.map (fun e => panelTopY e.2)))) rowsSorted
  (rowsOrdered.flatten.enum).map (fun e => { e.2.2 with readingOrder := e.1 })

/-- Amended clustering scan, written from the code's behaviour: seed rescan
over regions in input order; a region joins the seed's group when its center
is within `tx` horizontally and `ty` vertically of the seed's center. -/
def specClusterScan (tx ty : ℚ) (pool : List (ℕ × TextRegion)) :
    List (ℕ × TextRegion) → List ℕ → List (List (ℕ × TextRegion))
  | [], _ => []
  | seed :: others, assigned =>
    if seed.1 ∈ assigned then specClusterScan tx ty pool others assigned
    else
      let groupMates := pool.filter (fun o => decide (o.1 ∉ assigned) &&
        decide (o.1 ≠ seed.1) &&
        (decide (|cX seed.2 - cX o.2| ≤ tx) && decide (|cY seed.2 - cY o.2| ≤ ty)))
      (seed :: groupMates) :: specClusterScan tx ty pool others
        (assigned ++ (seed :: groupMates).map Prod.fst)

/-- Amended clustering, written from the code's behaviour: the seed-rescan
scan at thresholds `panelThresholdX = max(avgWidth * 2, min(maxX2 * 0.08,
150))` and `panelThresholdY = max(avgHeight * 2, min(maxY2 * 0.08, 150))`. -/
def specPanelClusters (regions : List TextRegion) : List (List (ℕ × TextRegion)) :=
  let panelThresholdX :=
    max (((regions.map (fun r => r.x2 - r.x1)).sum / (regions.length : ℚ)) * 2)
      (min (listMaxQ (regions.map (fun r => r.x2)) * (8/100)) 150)
  let panelThresholdY :=
    max (((regions.map regionHeight).sum / (regions.length : ℚ)) * 2)
      (min (listMaxQ (regions.map (fun r => r.y2)) * (8/100)) 150)
  specClusterScan panelThresholdX panelThresholdY regions.enum regions.enum []

/-- Whether two regions land in one group under `detect_panels`' thresholds
for the two-region page `[r1, r2]`. -/
def closePair (r1 r2 : TextRegion) : Bool :=
  let t := panelThresholds [r1, r2]
  decide (|cX r1 - cX r2| ≤ t.1) && decide (|cY r1 - cY r2| ≤ t.2)

/-! ### Bridges between the code embedding and the spec-side definitions -/

theorem specAssignRows_eq (thr : ℚ) (pool : List (ℕ × TextRegion)) :
    ∀ (seeds : List (ℕ × TextRegion)) (assigned : List ℕ),
      specAssignRows thr pool seeds assigned =
      seedGroups (fun s o => decide (|s.y1 - o.y1| ≤ thr)) pool seeds assigned := by
  intro seeds
  induction seeds with
  | nil => intro asg; rfl
  | cons s rest ih =>
    intro asg
    by_cases hs : s.1 ∈ asg
    · rw [specAssignRows, seedGroups, if_pos hs, if_pos hs]
      exact ih asg
    · simp only [specAssignRows, seedGroups]
      rw [if_neg hs, if_neg hs, ih]
      rfl

theorem specAssignPanelRows_eq (thr : ℚ) (pool : List (ℕ × Panel)) :
    ∀ (seeds : List (ℕ × Panel)) (assigned : List ℕ),
      specAssignPanelRows thr pool seeds assigned =
      seedGroups (fun s o => decide (|s.y1 - o.y1| ≤ thr)) pool seeds assigned := by
  intro seeds
  induction seeds with
  | nil => intro asg; rfl
  | cons s rest ih =>
    intro asg
    by_cases hs : s.1 ∈ asg
    · rw [specAssignPanelRows, seedGroups, if_pos hs, if_pos hs]
      exact ih asg
    · simp only [specAssignPanelRows, seedGroups]
      rw [if_neg hs, if_neg hs, ih]
      rfl

theorem specClusterScan_eq (tx ty : ℚ) (pool : List (ℕ × TextRegion)) :
    ∀ (seeds : List (ℕ × TextRegion)) (assigned : List ℕ),
      specClusterScan tx ty pool seeds assigned =
      seedGroups (fun s o => decide (|cX s - cX o| ≤ tx) &&
        decide (|cY s - cY o| ≤ ty)) pool seeds assigned := by
  intro seeds
  induction seeds with
  | nil => intro asg; rfl
  | cons s rest ih =>
    intro asg
    by_cases hs : s.1 ∈ asg
    · rw [specClusterScan, seedGroups, if_pos hs, if_pos hs]
      exact ih asg
    · simp only [specClusterScan, seedGroups]
      rw [if_neg hs, if_neg hs, ih]

theorem panelGroups_eq_spec (rs : List TextRegion) :
    panelGroups rs = specPanelClusters rs := by
  simp only [panelGroups, specPanelClusters]
  rw [specClusterScan_eq]
  rfl

theorem orderPanels_eq_spec (P : List Panel) :
    orderPanels P = specOrderPanelsTopY P := by
  simp only [orderPanels, specOrderPanelsTopY]
  rw [specAssignPanelRows_eq]
  rfl

theorem rowSortCore_eq_spec (rs : List TextRegion) :
    rowSortCore rs = (stableSort
      (fun r1 r2 => decide (listMinQ (r1.map (fun e => topY e.2)) ≤
        listMinQ (r2.map (fun e => topY e.2))))
      ((specAssignRows (specRowThreshold rs) rs.enum
        (stableSort (fun a b => decide (topY a.2 ≤ topY b.2)) rs.enum) []).map
        (stableSort specWithinRowLe))).flatten.enum.map
      (fun e => { e.2.2 with readingOrder := e.1 }) := by
  simp only [rowSortCore]
  rw [specAssignRows_eq]
  rfl

/-! ### Panel membership as multisets (ignoring order everywhere) -/

/-- The multiset of a panel list's member multisets, regions stripped of
their reading order. -/
def memberMultisets (ps : List Panel) : Multiset (Multiset (ℚ × ℚ × ℚ × ℚ × ℕ)) :=
  ((ps.map (fun p =>
    ((p.textRegions.map stripOrder : List (ℚ × ℚ × ℚ × ℚ × ℕ)) :
      Multiset (ℚ × ℚ × ℚ × ℚ × ℕ)))) : Multiset (Multiset (ℚ × ℚ × ℚ × ℚ × ℕ)))

/-- The multiset of a group list's member multisets, regions stripped of
their reading order. -/
def groupMultisets (gs : List (List (ℕ × TextRegion))) :
    Multiset (Multiset (ℚ × ℚ × ℚ × ℚ × ℕ)) :=
  ((gs.map (fun g =>
    (((g.map Prod.snd).map stripOrder : List (ℚ × ℚ × ℚ × ℚ × ℕ)) :
      Multiset (ℚ × ℚ × ℚ × ℚ × ℕ)))) : Multiset (Multiset (ℚ × ℚ × ℚ × ℚ × ℕ)))

theorem detect_members_multiset (rs : List TextRegion) :
    memberMultisets (detect_panels rs) = groupMultisets (panelGroups rs) := by
  match rs with
  | [] => rfl
  | [r] => rfl
  | a :: b :: t =>
    have hd : detect_panels (a :: b :: t) = detectPanelsMulti (a :: b :: t) := rfl
    rw [hd, detectPanelsMulti]
    by_cases hc : (buildPanelObjects (a :: b :: t)).length ≤ 1
    · rw [if_pos hc]
      have hlen : (panelGroups (a :: b :: t)).length =
          (buildPanelObjects (a :: b :: t)).length := by
        rw [buildPanelObjects_eq, List.length_map]
      have hpos : 0 < (panelGroups (a :: b :: t)).length := by
        by_contra h0
        have h0' : (panelGroups (a :: b :: t)).length = 0 := by omega
        have hnil : panelGroups (a :: b :: t) = [] := List.length_eq_zero.mp h0'
        have := panelGroups_flatten_perm (a :: b :: t)
        rw [hnil] at this
        simp only [List.flatten_nil, List.map_nil] at this
        have := this.symm.eq_nil
        cases this
      have h1 : (panelGroups (a :: b :: t)).length = 1 := by omega
      obtain ⟨g, hg⟩ := List.length_eq_one.mp h1
      have hgp : ((g.map Prod.snd).map stripOrder).Perm
          ((a :: b :: t).map stripOrder) := by
        have h2 := (panelGroups_flatten_perm (a :: b :: t)).map stripOrder
        rw [hg] at h2
        simpa using h2
      rw [hg]
      rw [fallback_panel_eq]
      unfold memberMultisets groupMultisets
      simp only [List.map_cons, List.map_nil]
      have hx : (((panelOf (a :: b :: t)).textRegions.map stripOrder :
            List (ℚ × ℚ × ℚ × ℚ × ℕ)) : Multiset (ℚ × ℚ × ℚ × ℚ × ℕ)) =
          (((g.map Prod.snd).map stripOrder : List (ℚ × ℚ × ℚ × ℚ × ℕ)) :
            Multiset (ℚ × ℚ × ℚ × ℚ × ℕ)) := by
        apply Multiset.coe_eq_coe.mpr
        exact (sort_strip_perm (a :: b :: t)).trans hgp.symm
      rw [hx]
    · rw [if_neg hc]
      have hOP : memberMultisets (orderPanels (buildPanelObjects (a :: b :: t))) =
          memberMultisets (buildPanelObjects (a :: b :: t)) := by
        unfold memberMultisets
        apply Multiset.coe_eq_coe.mpr
        have h := (orderPanels_members_perm (buildPanelObjects (a :: b :: t))).map
          (fun l : List TextRegion =>
            ((l.map stripOrder : List (ℚ × ℚ × ℚ × ℚ × ℕ)) :
              Multiset (ℚ × ℚ × ℚ × ℚ × ℕ)))
        rw [List.map_map, List.map_map] at h
        exact h
      rw [hOP, buildPanelObjects_eq]
      unfold memberMultisets groupMultisets
      rw [List.map_map]
      congr 1
      apply List.map_congr_left
      intro g _
      apply Multiset.coe_eq_coe.mpr
      exact sort_strip_perm (g.map Prod.snd)

theorem use_panels_eq_spec (panels : List Panel) (regions : List TextRegion) :
    use_panels panels regions = usePanelsSpec panels regions := by
  have h45 : ((4 : ℚ)/5 * (regions.length : ℚ)) = (regions.length : ℚ) * (8/10) := by
    rw [mul_comm]
    norm_num
  cases panels with
  | nil => rfl
  | cons p ps =>
    by_cases h2 : (p :: ps).length = 1
    · simp [use_panels, usePanelsSpec, h2]
    · by_cases h3 : ((p :: ps).length : ℚ) > (regions.length : ℚ) * (8/10)
      · by_cases h4 : regions.length > 2
        · simp [use_panels, usePanelsSpec, h2, h3, h4, h45]
        · simp [use_panels, usePanelsSpec, h2, h3, h4, h45]
      · simp [use_panels, usePanelsSpec, h2, h3, h45]

/-! ### Two-region evaluation of `detect_panels` -/
theorem c6_close (r1 r2 : TextRegion) (h : closePair r1 r2 = true) :
    panelGroups [r1, r2] = [[(0, r1), (1, r2)]] := by
  simp only [closePair] at h
  rw [Bool.and_eq_true] at h
  simp only [panelGroups]
  rw [show ([r1, r2].enum) = [(0, r1), (1, r2)] from rfl]
  rw [seedGroups, if_neg (List.not_mem_nil 0)]
  simp only [List.filter_cons, List.filter_nil]
  norm_num [h.1, h.2]
  rw [seedGroups]
  rw [if_pos (by simp)]
  rfl



theorem c6_far (r1 r2 : TextRegion) (h : closePair r1 r2 = false) :
    panelGroups [r1, r2] = [[(0, r1)], [(1, r2)]] := by
  simp only [closePair] at h
  simp only [panelGroups]
  rw [show ([r1, r2].enum) = [(0, r1), (1, r2)] from rfl]
  rw [seedGroups, if_neg (List.not_mem_nil 0)]
  simp only [List.filter_cons, List.filter_nil]
  norm_num [h]
  rw [seedGroups, if_neg (by simp)]
  simp only [List.filter_cons, List.filter_nil]
  norm_num
  rfl

theorem c6_detect_close (r1 r2 : TextRegion) (h : closePair r1 r2 = true) :
    detect_panels [r1, r2] =
      [Panel.mk (min r1.x1 r2.x1) (min r1.y1 r2.y1) (max r1.x2 r2.x2)
        (max r1.y2 r2.y2) (sort_by_reading_order [r1, r2]) 0] := by
  have hd : detect_panels [r1, r2] = detectPanelsMulti [r1, r2] := rfl
  rw [hd, detectPanelsMulti]
  have hbp : buildPanelObjects [r1, r2] = [panelOf [r1, r2]] := by
    rw [buildPanelObjects, c6_close r1 r2 h]
    rfl
  rw [hbp, if_pos (by simp)]
  rfl

theorem c6_detect_far (r1 r2 : TextRegion) (h : closePair r1 r2 = false) :
    (detect_panels [r1, r2]).length = 2 := by
  have hd : detect_panels [r1, r2] = detectPanelsMulti [r1, r2] := rfl
  rw [hd, detectPanelsMulti]
  have hbp : buildPanelObjects [r1, r2] = [panelOf [r1], panelOf [r2]] := by
    rw [buildPanelObjects, c6_far r1 r2 h]
    rfl
  rw [hbp, if_neg (by simp), orderPanels_length]
  rfl

/-! ### Concrete pages used by witnesses and counterexamples -/

/-- Top-right region of the four-region demo page (spec scenario A). -/
def wA : TextRegion := ⟨200, 50, 300, 100, 0, 0⟩

/-- Top-left region of the demo page. -/
def wB : TextRegion := ⟨50, 50, 150, 100, 1, 0⟩

/-- Bottom-right region of the demo page. -/
def wC : TextRegion := ⟨200, 200, 300, 250, 2, 0⟩

/-- Bottom-left region of the demo page. -/
def wD : TextRegion := ⟨50, 200, 150, 250, 3, 0⟩

/-- A four-region demo page: two rows of two regions each. -/
def wPage : List TextRegion := [wA, wB, wC, wD]

/-- Region 1 of the vertical chain page. -/
def c3R1 : TextRegion := ⟨0, 0, 100, 100, 0, 0⟩

/-- Region 2 of the vertical chain page: 170px below region 1's top. -/
def c3R2 : TextRegion := ⟨0, 170, 100, 270, 1, 0⟩

/-- Region 3 of the vertical chain page: 170px below region 2's top. -/
def c3R3 : TextRegion := ⟨0, 340, 100, 440, 2, 0⟩

/-- A chain of three vertically spaced regions: consecutive center distances
are 170, within the spec's `eps = avgHeight * 1.8 = 180`, but region 3 is
340 away from region 1's group seed, beyond the code's `panel_threshold_y =
200`. -/
def c3Page : List TextRegion := [c3R1, c3R2, c3R3]

/-- A tall narrow region on the left, top at 0, center y = 150. -/
def c4R1 : TextRegion := ⟨0, 0, 100, 300, 0, 0⟩

/-- A short region on the right, top at 130, center y = 150. -/
def c4R2 : TextRegion := ⟨220, 130, 300, 170, 1, 0⟩

/-- A far-below region aligned with region 2. -/
def c4R3 : TextRegion := ⟨220, 800, 300, 900, 2, 0⟩

/-- A page clustering into three singleton panels whose code ordering
(by top edge) differs from the spec's described ordering (by center y). -/
def c4Page : List TextRegion := [c4R1, c4R2, c4R3]

/-- A small region near the origin. -/
def c6Far1 : TextRegion := ⟨0, 0, 10, 10, 0, 0⟩

/-- A small region far away from the origin. -/
def c6Far2 : TextRegion := ⟨1000, 1000, 1010, 1010, 1, 0⟩

/-- A small region near the origin, close to `c6Near2`. -/
def c6Near1 : TextRegion := ⟨0, 0, 10, 10, 0, 0⟩

/-- A small region 20px to the right of `c6Near1`'s center. -/
def c6Near2 : TextRegion := ⟨20, 0, 30, 10, 1, 0⟩

/-! ### The claims -/

/-- C1: in the per-page composition step, `usePanels` is decided exactly as
the spec states (false on an empty panel list, false on exactly one panel,
false when `|panels| > 0.8 * regionCount` while `regionCount > 2`, true
otherwise), and whenever `usePanels` is false the final region sequence of a
completed run equals the flat detection order unchanged. -/
theorem claim_C1 :
    (∀ (panels : List Panel) (regions : List TextRegion),
      use_panels panels regions = usePanelsSpec panels regions) ∧
    (∀ (panels : List Panel) (regions : List TextRegion)
      (recognize : TextRegion → Option OCRResult) (skipErrors : Bool)
      (res : List OCRResult × List TextRegion),
      use_panels panels regions = false →
      process_image_core recognize skipErrors regions panels = Except.ok res →
      res.2 = regions) := by
  constructor
  · exact use_panels_eq_spec
  · intro panels regions recognize se res hup hok
    unfold process_image_core at hok
    rw [if_neg (by simp [hup])] at hok
    exact run_ocr_loop_ok_regions recognize se regions res hok

/-- Witness for C1: with no panels and one region, a completed fallback run
returns the detection order unchanged. -/
theorem claim_C1_witness :
    (([{ text := "", confidence := 1, region := wA }], [wA]) :
      List OCRResult × List TextRegion).2 = [wA] :=
  claim_C1.2 [] [wA] (fun r => some { text := "", confidence := 1, region := r })
    true ([{ text := "", confidence := 1, region := wA }], [wA])
    (by rfl) (by rfl)

/-- C2: `sort_by_reading_order` implements exactly the spec's
RegionRowSorter policy — seed-rescan row grouping at `rowThreshold = max(15,
min(avgHeight * 0.6, imageHeightEstimate * 0.08))` with
`imageHeightEstimate = max(topY) - min(topY)`, rows sorted internally by
`rightX` descending with ties by `topY` ascending, rows ordered by minimum
`topY`, flattened. -/
theorem claim_C2 (regions : List TextRegion) :
    sort_by_reading_order regions = specRowSort regions := by
  match regions with
  | [] => rfl
  | [r] => rfl
  | a :: b :: t =>
    show rowSortCore (a :: b :: t) = specRowSort (a :: b :: t)
    rw [rowSortCore_eq_spec]
    rfl

/-- C3 counterexample: on the three-region chain page the code produces two
panels, while the spec's density-based clustering (radius
`eps = avgHeight * 1.8`, transitive single linkage) produces one cluster —
so the panel membership does not equal the spec's clustering. -/
theorem claim_C3_counterexample :
    (detect_panels c3Page).length = 2 ∧ (specDensityClusters c3Page).length = 1 := by
  with_unfolding_all decide

/-- C3 amended: for more than two regions, panel membership equals the
seed-rescan axis-aligned grouping of region centers (thresholds
`max(avgWidth * 2, min(maxX2 * 0.08, 150))` horizontally and
`max(avgHeight * 2, min(maxY2 * 0.08, 150))` vertically, candidates compared
to the group's seed only, with no transitive closure), every region landing
in exactly one group. -/
theorem claim_C3 (regions : List TextRegion) (h : 2 < regions.length) :
    memberMultisets (detect_panels regions) =
      groupMultisets (specPanelClusters regions) := by
  rw [detect_members_multiset, panelGroups_eq_spec]

/-- Witness for C3 (amended): the four-region demo page. -/
theorem claim_C3_witness :
    memberMultisets (detect_panels wPage) = groupMultisets (specPanelClusters wPage) :=
  claim_C3 wPage (by with_unfolding_all decide)

/-- C4 counterexample: on the three-panel page, the code's panel order (by
bbox top edge, threshold `max(20, ...)`) is P1, P2, P3, while the spec's
described ordering (centers sorted by `cy`, sequential walk at
`(maxCy - minCy) * 0.15`, rows by `cx` descending) yields P2, P1, P3. -/
theorem claim_C4_counterexample :
    (detect_panels c4Page).map (fun p => (p.x1, p.y1, p.x2, p.y2)) ≠
      (specOrderPanelsCy ((c4Page.map regionHeight).sum / (c4Page.length : ℚ))
        (buildPanelObjects c4Page)).map (fun p => (p.x1, p.y1, p.x2, p.y2)) := by
  with_unfolding_all decide

/-- C4 amended: whenever the clustering step yields at least two panels (on
at least two regions), the returned order is the top-edge policy: seed-rescan
rows on `topY` at `max(20, min(avgPanelHeight * 0.6,
(maxTopY - minTopY) * 0.08))`, rows ordered by minimum `topY`, rows sorted
internally by `rightX` descending with ties by `topY` ascending, flattened
with `readingOrder = 0..m-1`. -/
theorem claim_C4 (regions : List TextRegion) (h1 : 2 ≤ regions.length)
    (h2 : 2 ≤ (buildPanelObjects regions).length) :
    detect_panels regions = specOrderPanelsTopY (buildPanelObjects regions) := by
  cases regions with
  | nil => simp at h1
  | cons a rs' =>
    cases rs' with
    | nil => simp at h1
    | cons b t =>
      have hd : detect_panels (a :: b :: t) = detectPanelsMulti (a :: b :: t) := rfl
      rw [hd, detectPanelsMulti, if_neg (by omega), orderPanels_eq_spec]

/-- Witness for C4 (amended): the three-panel page. -/
theorem claim_C4_witness :
    detect_panels c4Page = specOrderPanelsTopY (buildPanelObjects c4Page) :=
  claim_C4 c4Page (by with_unfolding_all decide) (by with_unfolding_all decide)

/-- C5: `sort_by_reading_order` returns a permutation of its input (up to
the re-derived `readingOrder` field) whose reading orders are exactly
`0..n-1` in output position order; the empty input yields the empty output
and a singleton yields the region with `readingOrder = 0`. -/
theorem claim_C5 :
    (∀ regions : List TextRegion,
      ((sort_by_reading_order regions).map stripOrder).Perm
        (regions.map stripOrder) ∧
      (sort_by_reading_order regions).map TextRegion.readingOrder =
        List.range regions.length) ∧
    sort_by_reading_order [] = [] ∧
    (∀ r : TextRegion, sort_by_reading_order [r] = [{ r with readingOrder := 0 }]) :=
  ⟨fun rs => ⟨sort_strip_perm rs, sort_orders rs⟩, rfl, fun r => rfl⟩

/-- C6 counterexample: two far-apart regions yield two panels, not the
single union panel the claim asserts for every input of at most two
regions. -/
theorem claim_C6_counterexample : (detect_panels [c6Far1, c6Far2]).length = 2 := by
  with_unfolding_all decide

/-- C6 amended: a single region yields one panel with that region's bbox and
the region unchanged; two regions whose centers are within the clustering
thresholds on both axes yield one panel with the union bbox and
RegionRowSorter member order; two regions farther apart yield two panels. -/
theorem claim_C6 :
    (∀ r : TextRegion, detect_panels [r] = [Panel.mk r.x1 r.y1 r.x2 r.y2 [r] 0]) ∧
    (∀ r1 r2 : TextRegion, closePair r1 r2 = true →
      detect_panels [r1, r2] =
        [Panel.mk (min r1.x1 r2.x1) (min r1.y1 r2.y1) (max r1.x2 r2.x2)
          (max r1.y2 r2.y2) (sort_by_reading_order [r1, r2]) 0]) ∧
    (∀ r1 r2 : TextRegion, closePair r1 r2 = false →
      (detect_panels [r1, r2]).length = 2) :=
  ⟨fun r => rfl, c6_detect_close, c6_detect_far⟩

/-- Witness for C6 (amended): two nearby regions collapse to one panel with
the union bbox. -/
theorem claim_C6_witness :
    detect_panels [c6Near1, c6Near2] =
      [Panel.mk (min c6Near1.x1 c6Near2.x1) (min c6Near1.y1 c6Near2.y1)
        (max c6Near1.x2 c6Near2.x2) (max c6Near1.y2 c6Near2.y2)
        (sort_by_reading_order [c6Near1, c6Near2]) 0] :=
  claim_C6.2.1 c6Near1 c6Near2 (by with_unfolding_all decide)

/-- C7: in the panel branch, every region's composite key is
`panel.readingOrder * 1000 + i` for its local index `i`, and under the
precondition that every panel holds fewer than 1000 regions the keys are
pairwise distinct (so the induced order is a strict total order). -/
theorem claim_C7 (regions : List TextRegion)
    (h : ∀ p ∈ detect_panels regions, p.textRegions.length < 1000) :
    (compose_panel_regions (detect_panels regions)).map TextRegion.readingOrder =
      ((detect_panels regions).map (fun p => (List.range p.textRegions.length).map
        (fun i => p.readingOrder * 1000 + i))).flatten ∧
    ((compose_panel_regions (detect_panels regions)).map
      TextRegion.readingOrder).Nodup := by
  refine ⟨compose_orders _, compose_keys_nodup _ h ?_⟩
  rw [detect_orders]
  exact List.nodup_range _

/-- Witness for C7: the four-region demo page, two panels of two regions. -/
theorem claim_C7_witness :
    ((compose_panel_regions (detect_panels wPage)).map TextRegion.readingOrder).Nodup :=
  (claim_C7 wPage (by with_unfolding_all decide)).2

/-- C8: every panel's bbox contains each member region's bbox, and the
panels' member lists partition the input set (each input region appears in
exactly one panel, counted with multiplicity). -/
theorem claim_C8 (regions : List TextRegion) :
    (∀ p ∈ detect_panels regions, ∀ r ∈ p.textRegions,
      p.x1 ≤ r.x1 ∧ p.y1 ≤ r.y1 ∧ r.x2 ≤ p.x2 ∧ r.y2 ≤ p.y2) ∧
    ((((detect_panels regions).map Panel.textRegions).flatten).map stripOrder).Perm
      (regions.map stripOrder) :=
  ⟨detect_contains regions, detect_members_flatten_perm regions⟩

/-- Witness for C8: the singleton page, whose panel bbox is the region's
own bbox. -/
theorem claim_C8_witness :
    (Panel.mk 200 50 300 100 [wA] 0).x1 ≤ wA.x1 ∧
    (Panel.mk 200 50 300 100 [wA] 0).y1 ≤ wA.y1 ∧
    wA.x2 ≤ (Panel.mk 200 50 300 100 [wA] 0).x2 ∧
    wA.y2 ≤ (Panel.mk 200 50 300 100 [wA] 0).y2 :=
  (claim_C8 [wA]).1 (Panel.mk 200 50 300 100 [wA] 0)
    (by with_unfolding_all decide) wA (by with_unfolding_all decide)

/-- C9: with error-skipping, a failed recognition contributes an
empty-text, confidence-0 result while the region (with its already-computed
reading order) stays in place and the remaining regions are processed;
without error-skipping any failure aborts the loop with an error. -/
theorem claim_C9 :
    (∀ (recognize : TextRegion → Option OCRResult) (l : List TextRegion),
      run_ocr_loop recognize true l = Except.ok
        (l.map (fun r => match recognize r with
          | some res => res
          | none => { text := "", confidence := 0, region := r }), l)) ∧
    (∀ (recognize : TextRegion → Option OCRResult) (l : List TextRegion),
      (∃ r ∈ l, recognize r = none) →
      run_ocr_loop recognize false l = Except.error ()) :=
  ⟨run_ocr_loop_skip, run_ocr_loop_abort⟩

/-- Witness for C9: a failing recognizer aborts when error-skipping is
disabled. -/
theorem claim_C9_witness :
    run_ocr_loop (fun _ => none) false [wA] = Except.error () :=
  claim_C9.2 (fun _ => none) [wA] ⟨wA, List.mem_cons_self wA [], rfl⟩

/-- C10: both sorters re-derive only the `readingOrder` field — the output
of `sort_by_reading_order` and the members of the panels returned by
`detect_panels` carry exactly the input regions' bbox and cropped-image
fields (as a permutation of the input). -/
theorem claim_C10 :
    (∀ regions : List TextRegion,
      ((sort_by_reading_order regions).map stripOrder).Perm
        (regions.map stripOrder)) ∧
    (∀ regions : List TextRegion,
      ((((detect_panels regions).map Panel.textRegions).flatten).map stripOrder).Perm
        (regions.map stripOrder)) :=
  ⟨sort_strip_perm, detect_members_flatten_perm⟩
